import Mathlib

/-!
# Verification of the `react_hooks/exhaustive_deps` lint rule

Shallow embedding of `crates/oxc_linter/src/rules/react_hooks/exhaustive_deps.rs`.

The rule inspects a `CallExpression` node.  When the callee resolves (via
`func_call_without_react_namespace`) to one of the recognized hook names, it

  * parses the optional second argument into a declared-dependency set
    (`collect_dependencies`),
  * walks the arrow-callback body collecting found dependencies
    (`check_statement` / `check_expression`), and
  * diffs the two sets, emitting one `MissingDependencyDiagnostic` per
    uncovered found dependency.

Modelling conventions:

  * The AST is restricted to the node shapes the rule distinguishes; every
    shape the source routes to a default/TODO branch is represented by a
    catch-all constructor (`otherExpr`, `otherStmt`, ...) or falls through the
    same way a non-matching Rust pattern does.
  * Optional-chaining (`a?.b`) parses, as in the oxc AST, to a
    `ChainExpression` wrapper (`Expr.chain`) around the member chain; the rule
    has no arm for it anywhere, so it always falls to the default branches.
  * `HashSet<String>` is modelled as an insertion-ordered duplicate-free
    `List String` (`insertDep`).  All properties proved below only depend on
    the membership semantics, never on iteration order (which `HashSet` does
    not fix).
  * The semantic layer (`is_reference_to_global_variable`,
    `get_declaration_of_variable`, scope ids) is the black-box service the
    rule consumes; it is modelled by `Env`, a resolution oracle for identifier
    names as seen from the callback body's scope.  The traversal implemented
    by the rule only ever visits nodes that live directly in the arrow
    callback's scope (it never descends into nested functions or blocks:
    those shapes hit default branches), so every visited
    `IdentifierReference`'s own `node.scope_id()` equals the callback scope,
    which `runRule` receives as the `bodyScope` argument.
  * `dbg!`/`println!` calls in the source are debug side effects with no
    influence on control flow and are not modelled.
-/

namespace ExhaustiveDeps

/-! ## AST -/

/-- Kind of a variable declaration (`VariableDeclarationKind`). -/
inductive VarKind where
  | varK
  | letK
  | constK
deriving DecidableEq, Repr

mutual

/-- Expressions, restricted to the shapes `exhaustive_deps.rs` distinguishes.
`member obj prop` is a `MemberExpression`; `prop = some p` is a static member
access with `static_property_name` `p`, `prop = none` is a computed access
(`static_property_name()` returns `None`).  `chain` is a `ChainExpression`
(optional chaining, e.g. `a?.b`); the rule matches no arm for it. -/
inductive Expr where
  | ident (name : String)
  | member (obj : Expr) (prop : Option String)
  | chain (inner : Expr)
  | call (callee : Expr) (args : List Arg)
  | arrayLit (elems : List ArrayElem)
  | arrow (body : List Stmt)
  | functionExpr
  | otherExpr
deriving Repr

/-- `Argument`: either a plain expression or a spread element. -/
inductive Arg where
  | expr (e : Expr)
  | spread (e : Expr)
deriving Repr

/-- `ArrayExpressionElement`: expression, spread element, or elision. -/
inductive ArrayElem where
  | elemExpr (e : Expr)
  | elemSpread (e : Expr)
  | elision
deriving Repr

/-- Statements.  The rule's `check_statement` only has an arm for
`ExpressionStatement`; the other constructors stand for the statement kinds
that fall into its default branch (they still carry the expressions the real
nodes contain, which the rule never looks at). -/
inductive Stmt where
  | exprStmt (e : Expr)
  | returnStmt (arg : Option Expr)
  | ifStmt (test : Expr)
  | variableDeclStmt (ini : Option Expr)
  | otherStmt
deriving Repr

end

/-- Binding pattern (`BindingPatternKind`), as far as `is_stable_value`
inspects it. -/
inductive BindingPat where
  | bindingIdent (name : String)
  | arrayPattern (elems : List (Option BindingPat))
  | otherPat
deriving Repr

/-- The declaration node `get_declaration_of_variable` returns, as far as
`is_stable_value` matches on its `AstKind`. -/
inductive DeclNode where
  | variableDeclaration (kind : VarKind)
  | variableDeclarator (kind : VarKind) (ini : Option Expr) (id : BindingPat)
  | formalParameter
  | otherNode
deriving Repr

/-- The semantic layer, as seen from the callback body's scope:
`isGlobal name` models `is_reference_to_global_variable`, and `getDecl name`
models `get_declaration_of_variable` together with the declaration's
`scope_id()`. -/
structure Env where
  isGlobal : String → Bool
  getDecl : String → Option (DeclNode × Nat)

/-- One emitted `MissingDependencyDiagnostic`: the hook name and the missing
dependency chain (the span is not modelled). -/
structure Diagnostic where
  hook : String
  dep : String
deriving DecidableEq, Repr

/-- The `CallExpression` node handed to `ExhaustiveDeps::run`. -/
structure CallExpressionNode where
  callee : Expr
  arguments : List Arg

/-! ## Small string helpers -/

/-- `HashSet::insert` on the list model: add at the end unless present. -/
def insertDep (deps : List String) (d : String) : List String :=
  if d ∈ deps then deps else deps ++ [d]

/-- Helper for `str::split_once('.')` on the character list. -/
def splitOnceAux : List Char → Option (List Char × List Char)
  | [] => none
  | c :: rest =>
    if c = '.' then some ([], rest)
    else
      match splitOnceAux rest with
      | some (a, b) => some (c :: a, b)
      | none => none

/-- Rust's `str::split_once(".")`: split at the first `'.'`, `none` when the
string contains no dot. -/
def splitOnceDot (s : String) : Option (String × String) :=
  match splitOnceAux s.data with
  | some (a, b) => some (String.mk a, String.mk b)
  | none => none

/-- Root identifier of a dependency chain: the part before the first dot, or
the whole string when there is none. -/
def rootOf (dep : String) : String :=
  match splitOnceDot dep with
  | some t => t.1
  | none => dep

/-- A JavaScript identifier name never contains a `'.'`. -/
def dotFree (s : String) : Bool := !s.data.contains '.'

/-! ## The rule's functions -/

/-- `analyze_property_chain`: identifier gives its name; a member access gives
`object-chain ++ "." ++ static-property-name` when both resolve; everything
else (chain expressions, calls, computed members, ...) is not analyzable. -/
def analyzePropertyChain : Expr → Option String
  | .ident name => some name
  | .member obj prop => do
    let objChain ← analyzePropertyChain obj
    let p ← prop
    pure (objChain ++ "." ++ p)
  | _ => none

/-- `func_call_without_react_namespace`: a bare-identifier callee gives its
name; a static member callee `React.hook` (object a reference named `React`)
gives the property name; anything else does not match. -/
def funcCallWithoutReactNamespace (callee : Expr) : Option String :=
  match callee with
  | .ident name => some name
  | .member obj prop =>
    match prop with
    | some propName =>
      match obj with
      | .ident refName => if refName = "React" then some propName else none
      | _ => none
    | none => none
  | _ => none

/-- `is_stable_value`.  A whole `VariableDeclaration` node is stable iff
`const`.  A `VariableDeclarator` is stable when `const`, or when it
destructures the second element of an array pattern out of a call whose callee
chain is exactly `useState` or `useReducer` and that element binds `name`.
Formal parameters and anything else are not stable. -/
def isStableValue (node : DeclNode) (name : String) : Bool :=
  match node with
  | .variableDeclaration kind => kind = .constK
  | .variableDeclarator kind ini id =>
    if kind = .constK then true
    else
      match ini with
      | some (.call calleeE _args) =>
        match id with
        | .arrayPattern elems =>
          match elems.get? 1 with
          | some (some secondArg) =>
            match secondArg with
            | .bindingIdent bname =>
              match analyzePropertyChain calleeE with
              | some initName =>
                if (initName = "useState" ∨ initName = "useReducer") ∧ bname = name
                then true else false
              | none => false
            | _ => false
          | _ => false
        | _ => false
      | _ => false
  | .formalParameter => false
  | .otherNode => false

/-- `is_identifier_a_dependency`: not a global reference, has a declaration,
the declaration is not stable, and the declaration's scope differs from the
reference's scope (`refScope`). -/
def isIdentifierADependency (env : Env) (refScope : Nat) (name : String) : Bool :=
  if env.isGlobal name then false
  else
    match env.getDecl name with
    | none => false
    | some (declaration, declScope) =>
      if isStableValue declaration name then false
      else if declScope = refScope then false
      else true

mutual

/-- `check_expression`: recurse through call callees/arguments and array
elements; record a bare identifier that is a dependency; record the chain of a
member access whose object is directly an identifier that is a dependency;
skip every other shape. -/
def checkExpression (env : Env) (refScope : Nat) (e : Expr) (deps : List String) :
    List String :=
  match e with
  | .call callee args =>
    checkArguments env refScope args (checkExpression env refScope callee deps)
  | .ident name =>
    if isIdentifierADependency env refScope name then insertDep deps name else deps
  | .member obj prop =>
    match obj with
    | .ident name =>
      if isIdentifierADependency env refScope name then
        match analyzePropertyChain (.member (.ident name) prop) with
        | some dependency => insertDep deps dependency
        | none => deps
      else deps
    | _ => deps
  | .arrayLit elems => checkElements env refScope elems deps
  | _ => deps

/-- The `for arg in &call_expr.arguments` loop: plain expression arguments are
checked, spread arguments fall to the TODO branch. -/
def checkArguments (env : Env) (refScope : Nat) (args : List Arg) (deps : List String) :
    List String :=
  match args with
  | [] => deps
  | .expr e :: rest => checkArguments env refScope rest (checkExpression env refScope e deps)
  | .spread _ :: rest => checkArguments env refScope rest deps

/-- The `for elem in &ary_expr.elements` loop: expression elements are
checked, spread/elision fall to the TODO branch. -/
def checkElements (env : Env) (refScope : Nat) (elems : List ArrayElem) (deps : List String) :
    List String :=
  match elems with
  | [] => deps
  | .elemExpr e :: rest => checkElements env refScope rest (checkExpression env refScope e deps)
  | _ :: rest => checkElements env refScope rest deps

end

/-- `check_statement`: only `ExpressionStatement` is inspected; every other
statement kind falls to the TODO branch and contributes nothing. -/
def checkStatement (env : Env) (refScope : Nat) (statement : Stmt) (deps : List String) :
    List String :=
  match statement with
  | .exprStmt e => checkExpression env refScope e deps
  | _ => deps

/-- `collect_dependencies`: the argument must be a plain expression that is an
array literal; each expression element contributes its property chain when
analyzable; spread elements and elisions fall to the TODO branch; a spread
argument or a non-array expression yields the empty set. -/
def collectDependencies (deps : Arg) : List String :=
  match deps with
  | .expr arg1Expr =>
    match arg1Expr with
    | .arrayLit elems =>
      elems.foldl
        (fun result elem =>
          match elem with
          | .elemExpr e =>
            match analyzePropertyChain e with
            | some dependency => insertDep result dependency
            | none => result
          | _ => result)
        []
    | _ => []
  | .spread _ => []

/-- The recognized hook names (`HOOKS`). -/
def HOOKS : List String := ["useEffect", "useLayoutEffect", "useCallback", "useMemo"]

/-- The declared set of a call's argument list: `collect_dependencies` of the
second argument when present, otherwise empty. -/
def declaredOf (arguments : List Arg) : List String :=
  match arguments.get? 1 with
  | some arg => collectDependencies arg
  | none => []

/-- The found set of a callback body: fold `check_statement` over its
statements starting from the empty set. -/
def foundOf (env : Env) (refScope : Nat) (body : List Stmt) : List String :=
  body.foldl (fun acc stmt => checkStatement env refScope stmt acc) []

/-- The body of the `for dep in undeclared_deps` loop at the end of `run`:
a dependency that splits at a first dot whose head is declared is suppressed
(`continue`), every other one appends a diagnostic. -/
def emitLoop (hookName : String) (declaredDeps : List String) (acc : List Diagnostic) :
    List String → List Diagnostic
  | [] => acc
  | dep :: rest =>
    match splitOnceDot dep with
    | some target =>
      if target.1 ∈ declaredDeps then emitLoop hookName declaredDeps acc rest
      else emitLoop hookName declaredDeps (acc ++ [{ hook := hookName, dep := dep }]) rest
    | none => emitLoop hookName declaredDeps (acc ++ [{ hook := hookName, dep := dep }]) rest

/-- The diff-and-emit step at the end of `run`:
`undeclared_deps = found.difference(declared)`, then the emission loop. -/
def emitDiags (hookName : String) (declaredDeps foundDeps : List String) :
    List Diagnostic :=
  emitLoop hookName declaredDeps [] (foundDeps.filter (fun d => d ∉ declaredDeps))

/-- `ExhaustiveDeps::run` on a `CallExpression` node.  `bodyScope` is the
scope id of the arrow callback body (the scope of every identifier reference
the traversal can visit, see the header comment). -/
def runRule (env : Env) (bodyScope : Nat) (callExpr : CallExpressionNode) :
    List Diagnostic :=
  match funcCallWithoutReactNamespace callExpr.callee with
  | none => []
  | some callback =>
    if callback ∈ HOOKS then
      match callExpr.arguments.get? 0 with
      | some (.expr (.arrow body)) =>
        emitDiags callback (declaredOf callExpr.arguments) (foundOf env bodyScope body)
      | _ => []
    else []

/-! ## Well-formedness: identifier names never contain a dot

JavaScript identifier names cannot contain `'.'`; the parser guarantees this
for every `IdentifierReference` in the tree.  The chain/ancestor reasoning
below needs this fact, so it is captured as a decidable predicate over the
embedded AST. -/

mutual

def exprIdentsDotFree : Expr → Bool
  | .ident name => dotFree name
  | .member obj _ => exprIdentsDotFree obj
  | .chain inner => exprIdentsDotFree inner
  | .call callee args => exprIdentsDotFree callee && argsIdentsDotFree args
  | .arrayLit elems => elemsIdentsDotFree elems
  | .arrow body => stmtsIdentsDotFree body
  | .functionExpr => true
  | .otherExpr => true

def argsIdentsDotFree : List Arg → Bool
  | [] => true
  | .expr e :: rest => exprIdentsDotFree e && argsIdentsDotFree rest
  | .spread e :: rest => exprIdentsDotFree e && argsIdentsDotFree rest

def elemsIdentsDotFree : List ArrayElem → Bool
  | [] => true
  | .elemExpr e :: rest => exprIdentsDotFree e && elemsIdentsDotFree rest
  | .elemSpread e :: rest => exprIdentsDotFree e && elemsIdentsDotFree rest
  | .elision :: rest => elemsIdentsDotFree rest

def stmtIdentsDotFree : Stmt → Bool
  | .exprStmt e => exprIdentsDotFree e
  | .returnStmt (some e) => exprIdentsDotFree e
  | .returnStmt none => true
  | .ifStmt test => exprIdentsDotFree test
  | .variableDeclStmt (some e) => exprIdentsDotFree e
  | .variableDeclStmt none => true
  | .otherStmt => true

def stmtsIdentsDotFree : List Stmt → Bool
  | [] => true
  | s :: rest => stmtIdentsDotFree s && stmtsIdentsDotFree rest

end

/-- Shape of every dependency the collector can record: either the bare name
of an identifier that passed `is_identifier_a_dependency`, or such a name
extended by one dot and a property name. -/
def GoodDep (env : Env) (refScope : Nat) (d : String) : Prop :=
  ∃ n, isIdentifierADependency env refScope n = true ∧ dotFree n = true ∧
    (d = n ∨ ∃ p, d = n ++ "." ++ p)

/-- Whether a statement is an `ExpressionStatement` (the only statement kind
`check_statement` has an arm for). -/
def isExpressionStatement : Stmt → Bool
  | .exprStmt _ => true
  | _ => false

/-- Whether a call argument is a plain array-literal expression (the only
shape `collect_dependencies` parses). -/
def isArrayLiteralArg : Arg → Bool
  | .expr (.arrayLit _) => true
  | _ => false

/-! ## Concrete fixtures

Environments and call nodes for the concrete scenarios.  Scope id `0` stands
for the enclosing component scope, scope id `1` for the arrow callback body's
scope. -/

/-- `let local = someFunc();` — a mutable binding initialized from an
unknown call: not stable. -/
def letLocalDecl : DeclNode :=
  .variableDeclarator .letK (some (.call (.ident "someFunc") [])) (.bindingIdent "local")

/-- Component scope: `local` declared by `letLocalDecl` in scope 0;
`console` and `someFunc` are global/unresolved references. -/
def envLocal : Env :=
  { isGlobal := fun n => n = "console" ∨ n = "someFunc"
    getDecl := fun n => if n = "local" then some (letLocalDecl, 0) else none }

/-- Callback body `{ console.log(local); }`. -/
def readsLocalBody : List Stmt :=
  [.exprStmt (.call (.member (.ident "console") (some "log")) [.expr (.ident "local")])]

/-- `useEffect(() => { console.log(local); }, dependencies)` — the second
argument is an identifier, not an array literal. -/
def nonArrayDepsCall : CallExpressionNode :=
  { callee := .ident "useEffect"
    arguments := [.expr (.arrow readsLocalBody), .expr (.ident "dependencies")] }

/-- `useEffect(() => { console.log(local); })` — no second argument. -/
def noDepsArgCall : CallExpressionNode :=
  { callee := .ident "useEffect"
    arguments := [.expr (.arrow readsLocalBody)] }

/-- `useEffect(() => { console.log(local); }, [local])` — declared set equals
found set. -/
def exactMatchCall : CallExpressionNode :=
  { callee := .ident "useEffect"
    arguments := [.expr (.arrow readsLocalBody), .expr (.arrayLit [.elemExpr (.ident "local")])] }

/-- `useEffect(function () {}, [])` — first argument is a plain `function`
expression, not an arrow function. -/
def functionExprArgCall : CallExpressionNode :=
  { callee := .ident "useEffect"
    arguments := [.expr .functionExpr, .expr (.arrayLit [])] }

/-- `function MyComponent(props)` scope: `props` is a formal parameter in
scope 0, `console` is global. -/
def envProps : Env :=
  { isGlobal := fun n => n = "console"
    getDecl := fun n => if n = "props" then some (.formalParameter, 0) else none }

/-- The expression `props.foo.bar`. -/
def propsFooBar : Expr := .member (.member (.ident "props") (some "foo")) (some "bar")

/-- `useEffect(() => { console.log(props.foo.bar); }, [])`. -/
def deepReadEmptyDepsCall : CallExpressionNode :=
  { callee := .ident "useEffect"
    arguments :=
      [.expr (.arrow [.exprStmt (.call (.member (.ident "console") (some "log")) [.expr propsFooBar])]),
       .expr (.arrayLit [])] }

/-- `useEffect(() => { console.log(props.foo.bar); }, [props.foo])`. -/
def deepReadPrefixDeclCall : CallExpressionNode :=
  { callee := .ident "useEffect"
    arguments :=
      [.expr (.arrow [.exprStmt (.call (.member (.ident "console") (some "log")) [.expr propsFooBar])]),
       .expr (.arrayLit [.elemExpr (.member (.ident "props") (some "foo"))])] }

/-- `const [state, setState] = useState(0);`. -/
def constUseStateDecl : DeclNode :=
  .variableDeclarator .constK (some (.call (.ident "useState") [.expr .otherExpr]))
    (.arrayPattern [some (.bindingIdent "state"), some (.bindingIdent "setState")])

/-- Scope with `constUseStateDecl` binding `state` and `setState` in scope 0. -/
def envConstState : Env :=
  { isGlobal := fun n => n = "console"
    getDecl := fun n =>
      if n = "state" ∨ n = "setState" then some (constUseStateDecl, 0) else none }

/-- `useEffect(() => { setState(1); console.log(state); }, [])`. -/
def stateReadCall : CallExpressionNode :=
  { callee := .ident "useEffect"
    arguments :=
      [.expr (.arrow [.exprStmt (.call (.ident "setState") [.expr .otherExpr]),
                      .exprStmt (.call (.member (.ident "console") (some "log"))
                        [.expr (.ident "state")])]),
       .expr (.arrayLit [])] }

/-- `let [state, setState] = React.useState(0);` — the callee carries the
`React` namespace qualifier. -/
def reactUseStateDecl : DeclNode :=
  .variableDeclarator .letK
    (some (.call (.member (.ident "React") (some "useState")) [.expr .otherExpr]))
    (.arrayPattern [some (.bindingIdent "state"), some (.bindingIdent "setState")])

/-- Scope with `reactUseStateDecl` binding `state` and `setState` in scope 0. -/
def envReactState : Env :=
  { isGlobal := fun _ => false
    getDecl := fun n =>
      if n = "state" ∨ n = "setState" then some (reactUseStateDecl, 0) else none }

/-- `useEffect(() => { setState(1); }, [])`. -/
def setStateCall : CallExpressionNode :=
  { callee := .ident "useEffect"
    arguments := [.expr (.arrow [.exprStmt (.call (.ident "setState") [.expr .otherExpr])]),
                  .expr (.arrayLit [])] }

/-- Scope with `let a = someFunc();` in scope 0. -/
def envLetA : Env :=
  { isGlobal := fun n => n = "someFunc"
    getDecl := fun n =>
      if n = "a" then
        some (.variableDeclarator .letK (some (.call (.ident "someFunc") []))
          (.bindingIdent "a"), 0)
      else none }

/-- `useEffect(() => { a.b; }, [a?.b])` — plain read, optional-chaining
declared entry. -/
def plainReadOptionalDeclCall : CallExpressionNode :=
  { callee := .ident "useEffect"
    arguments :=
      [.expr (.arrow [.exprStmt (.member (.ident "a") (some "b"))]),
       .expr (.arrayLit [.elemExpr (.chain (.member (.ident "a") (some "b")))])] }

/-- `useEffect(() => { a?.b; }, [a.b])` — optional-chaining read, plain
declared entry. -/
def optionalReadPlainDeclCall : CallExpressionNode :=
  { callee := .ident "useEffect"
    arguments :=
      [.expr (.arrow [.exprStmt (.chain (.member (.ident "a") (some "b")))]),
       .expr (.arrayLit [.elemExpr (.member (.ident "a") (some "b"))])] }

/-- A scope that also has a binding `shadowed` declared inside the callback
body itself (scope 1), shadowing nothing the rule could flag. -/
def envShadow : Env :=
  { isGlobal := fun n => n = "console" ∨ n = "someFunc"
    getDecl := fun n =>
      if n = "local" then some (letLocalDecl, 0)
      else if n = "shadowed" then
        some (.variableDeclarator .letK none (.bindingIdent "shadowed"), 1)
      else none }

/-- `useEffect(() => { console.log(shadowed); console.log(local); }, [])`:
`shadowed` is declared inside the callback body, `local` outside. -/
def shadowReadCall : CallExpressionNode :=
  { callee := .ident "useEffect"
    arguments :=
      [.expr (.arrow
        [.exprStmt (.call (.member (.ident "console") (some "log")) [.expr (.ident "shadowed")]),
         .exprStmt (.call (.member (.ident "console") (some "log")) [.expr (.ident "local")])]),
       .expr (.arrayLit [])] }

end ExhaustiveDeps

namespace ExhaustiveDeps

/-! ## Helper lemmas -/

theorem mem_insertDep {deps : List String} {x d : String}
    (h : d ∈ insertDep deps x) : d ∈ deps ∨ d = x := by
  unfold insertDep at h
  split at h
  · exact Or.inl h
  · simpa using h

theorem splitOnceAux_eq_none {l : List Char} (h : '.' ∉ l) :
    splitOnceAux l = none := by
  induction l with
  | nil => rfl
  | cons c rest ih =>
    simp only [List.mem_cons, not_or] at h
    have hne : ¬ c = '.' := fun hc => h.1 hc.symm
    simp only [splitOnceAux, if_neg hne, ih h.2]

theorem splitOnceAux_append {a : List Char} (b : List Char) (h : '.' ∉ a) :
    splitOnceAux (a ++ '.' :: b) = some (a, b) := by
  induction a with
  | nil => simp [splitOnceAux]
  | cons c rest ih =>
    simp only [List.mem_cons, not_or] at h
    have hne : ¬ c = '.' := fun hc => h.1 hc.symm
    simp only [List.cons_append, splitOnceAux, if_neg hne, List.append_eq]
    rw [ih h.2]

theorem dotFree_iff {s : String} : dotFree s = true ↔ '.' ∉ s.data := by
  simp [dotFree]

theorem rootOf_dotFree {n : String} (h : dotFree n = true) : rootOf n = n := by
  unfold rootOf splitOnceDot
  rw [splitOnceAux_eq_none (dotFree_iff.mp h)]

theorem rootOf_chain {n : String} (p : String) (h : dotFree n = true) :
    rootOf (n ++ "." ++ p) = n := by
  unfold rootOf splitOnceDot
  have hdata : (n ++ "." ++ p).data = n.data ++ '.' :: p.data := by
    simp [String.data_append]
  rw [hdata, splitOnceAux_append _ (dotFree_iff.mp h)]

theorem goodDep_root {env : Env} {rs : Nat} {d : String} (h : GoodDep env rs d) :
    isIdentifierADependency env rs (rootOf d) = true := by
  obtain ⟨n, hdep, hfree, hd⟩ := h
  rcases hd with rfl | ⟨p, rfl⟩
  · rwa [rootOf_dotFree hfree]
  · rwa [rootOf_chain p hfree]

theorem analyzePropertyChain_ident_member (name : String) (prop : Option String) :
    analyzePropertyChain (.member (.ident name) prop)
      = prop.map (fun p => name ++ "." ++ p) := by
  cases prop <;> rfl

mutual

theorem checkExpression_mem (env : Env) (rs : Nat) (e : Expr) (deps : List String)
    (d : String) (hwf : exprIdentsDotFree e = true)
    (h : d ∈ checkExpression env rs e deps) : d ∈ deps ∨ GoodDep env rs d := by
  cases e with
  | ident name =>
    simp only [exprIdentsDotFree] at hwf
    simp only [checkExpression] at h
    split at h
    next hdep =>
      rcases mem_insertDep h with hd | hd2
      · exact Or.inl hd
      · exact Or.inr ⟨name, hdep, hwf, Or.inl hd2⟩
    next => exact Or.inl h
  | member obj prop =>
    cases obj with
    | ident name =>
      simp only [exprIdentsDotFree] at hwf
      simp only [checkExpression, analyzePropertyChain_ident_member] at h
      split at h
      next hdep =>
        cases prop with
        | some p =>
          simp only [Option.map_some'] at h
          rcases mem_insertDep h with hd | hd2
          · exact Or.inl hd
          · exact Or.inr ⟨name, hdep, hwf, Or.inr ⟨p, hd2⟩⟩
        | none =>
          simp only [Option.map_none'] at h
          exact Or.inl h
      next => exact Or.inl h
    | member o q => simp only [checkExpression] at h; exact Or.inl h
    | chain inner => simp only [checkExpression] at h; exact Or.inl h
    | call c as => simp only [checkExpression] at h; exact Or.inl h
    | arrayLit es => simp only [checkExpression] at h; exact Or.inl h
    | arrow body => simp only [checkExpression] at h; exact Or.inl h
    | functionExpr => simp only [checkExpression] at h; exact Or.inl h
    | otherExpr => simp only [checkExpression] at h; exact Or.inl h
  | chain inner => simp only [checkExpression] at h; exact Or.inl h
  | call callee args =>
    simp only [exprIdentsDotFree, Bool.and_eq_true] at hwf
    simp only [checkExpression] at h
    rcases checkArguments_mem env rs args (checkExpression env rs callee deps) d hwf.2 h
      with h' | hg
    · exact checkExpression_mem env rs callee deps d hwf.1 h'
    · exact Or.inr hg
  | arrayLit elems =>
    simp only [exprIdentsDotFree] at hwf
    simp only [checkExpression] at h
    exact checkElements_mem env rs elems deps d hwf h
  | arrow body => simp only [checkExpression] at h; exact Or.inl h
  | functionExpr => simp only [checkExpression] at h; exact Or.inl h
  | otherExpr => simp only [checkExpression] at h; exact Or.inl h

theorem checkArguments_mem (env : Env) (rs : Nat) (args : List Arg) (deps : List String)
    (d : String) (hwf : argsIdentsDotFree args = true)
    (h : d ∈ checkArguments env rs args deps) : d ∈ deps ∨ GoodDep env rs d := by
  cases args with
  | nil => simp only [checkArguments] at h; exact Or.inl h
  | cons a rest =>
    cases a with
    | expr e =>
      simp only [argsIdentsDotFree, Bool.and_eq_true] at hwf
      simp only [checkArguments] at h
      rcases checkArguments_mem env rs rest (checkExpression env rs e deps) d hwf.2 h
        with h' | hg
      · exact checkExpression_mem env rs e deps d hwf.1 h'
      · exact Or.inr hg
    | spread e =>
      simp only [argsIdentsDotFree, Bool.and_eq_true] at hwf
      simp only [checkArguments] at h
      exact checkArguments_mem env rs rest deps d hwf.2 h

theorem checkElements_mem (env : Env) (rs : Nat) (elems : List ArrayElem)
    (deps : List String) (d : String) (hwf : elemsIdentsDotFree elems = true)
    (h : d ∈ checkElements env rs elems deps) : d ∈ deps ∨ GoodDep env rs d := by
  cases elems with
  | nil => simp only [checkElements] at h; exact Or.inl h
  | cons el rest =>
    cases el with
    | elemExpr e =>
      simp only [elemsIdentsDotFree, Bool.and_eq_true] at hwf
      simp only [checkElements] at h
      rcases checkElements_mem env rs rest (checkExpression env rs e deps) d hwf.2 h
        with h' | hg
      · exact checkExpression_mem env rs e deps d hwf.1 h'
      · exact Or.inr hg
    | elemSpread e =>
      simp only [elemsIdentsDotFree, Bool.and_eq_true] at hwf
      simp only [checkElements] at h
      exact checkElements_mem env rs rest deps d hwf.2 h
    | elision =>
      simp only [elemsIdentsDotFree] at hwf
      simp only [checkElements] at h
      exact checkElements_mem env rs rest deps d hwf h

end

theorem checkStatement_mem (env : Env) (rs : Nat) (s : Stmt) (deps : List String)
    (d : String) (hwf : stmtIdentsDotFree s = true)
    (h : d ∈ checkStatement env rs s deps) : d ∈ deps ∨ GoodDep env rs d := by
  cases s with
  | exprStmt e =>
    simp only [stmtIdentsDotFree] at hwf
    simp only [checkStatement] at h
    exact checkExpression_mem env rs e deps d hwf h
  | returnStmt arg => simp only [checkStatement] at h; exact Or.inl h
  | ifStmt test => simp only [checkStatement] at h; exact Or.inl h
  | variableDeclStmt ini => simp only [checkStatement] at h; exact Or.inl h
  | otherStmt => simp only [checkStatement] at h; exact Or.inl h

theorem foldStatements_mem (env : Env) (rs : Nat) (body : List Stmt) :
    ∀ (acc : List String) (d : String), stmtsIdentsDotFree body = true →
      d ∈ body.foldl (fun acc stmt => checkStatement env rs stmt acc) acc →
      d ∈ acc ∨ GoodDep env rs d := by
  induction body with
  | nil => intro acc d _ h; exact Or.inl h
  | cons s rest ih =>
    intro acc d hwf h
    simp only [stmtsIdentsDotFree, Bool.and_eq_true] at hwf
    simp only [List.foldl_cons] at h
    rcases ih (checkStatement env rs s acc) d hwf.2 h with h' | hg
    · exact checkStatement_mem env rs s acc d hwf.1 h'
    · exact Or.inr hg

theorem foundOf_mem (env : Env) (rs : Nat) (body : List Stmt) (d : String)
    (hwf : stmtsIdentsDotFree body = true) (h : d ∈ foundOf env rs body) :
    GoodDep env rs d := by
  rcases foldStatements_mem env rs body [] d hwf h with h' | hg
  · simp at h'
  · exact hg

theorem emitLoop_mem (hookName : String) (declaredDeps : List String)
    (l : List String) : ∀ (acc : List Diagnostic) (diag : Diagnostic),
    diag ∈ emitLoop hookName declaredDeps acc l →
      diag ∈ acc ∨ ∃ dep, dep ∈ l ∧ diag = { hook := hookName, dep := dep } := by
  induction l with
  | nil => intro acc diag h; exact Or.inl h
  | cons dep rest ih =>
    intro acc diag h
    have step : ∀ acc2 : List Diagnostic,
        diag ∈ emitLoop hookName declaredDeps acc2 rest →
        diag ∈ acc2 ∨ ∃ x, x ∈ dep :: rest ∧ diag = { hook := hookName, dep := x } := by
      intro acc2 h2
      rcases ih acc2 diag h2 with h' | ⟨x, hx, hdx⟩
      · exact Or.inl h'
      · exact Or.inr ⟨x, List.mem_cons_of_mem _ hx, hdx⟩
    have fromAppend : diag ∈ acc ++ [{ hook := hookName, dep := dep }] →
        diag ∈ acc ∨ ∃ x, x ∈ dep :: rest ∧ diag = { hook := hookName, dep := x } := by
      intro h'
      rcases List.mem_append.mp h' with h'' | h''
      · exact Or.inl h''
      · simp only [List.mem_singleton] at h''
        exact Or.inr ⟨dep, List.mem_cons_self _ _, h''⟩
    simp only [emitLoop] at h
    split at h
    · split at h
      · exact step _ h
      · exact (step _ h).elim fromAppend Or.inr
    · exact (step _ h).elim fromAppend Or.inr

theorem emitLoop_nil_declared (hookName : String) (l : List String) :
    ∀ acc : List Diagnostic,
      emitLoop hookName [] acc l = acc ++ l.map (fun d => { hook := hookName, dep := d }) := by
  induction l with
  | nil => intro acc; simp [emitLoop]
  | cons dep rest ih =>
    intro acc
    rcases hsplit : splitOnceDot dep with _ | target
    · simp [emitLoop, hsplit, ih]
    · simp [emitLoop, hsplit, ih]

theorem emitDiags_nil_declared (hookName : String) (foundDeps : List String) :
    emitDiags hookName [] foundDeps
      = foundDeps.map (fun d => { hook := hookName, dep := d }) := by
  unfold emitDiags
  have hfilter : foundDeps.filter (fun d => d ∉ ([] : List String)) = foundDeps := by
    simp
  rw [hfilter, emitLoop_nil_declared, List.nil_append]

theorem runRule_matched (env : Env) (rs : Nat) (call : CallExpressionNode)
    (name : String) (body : List Stmt)
    (h1 : funcCallWithoutReactNamespace call.callee = some name)
    (h2 : name ∈ HOOKS)
    (h3 : call.arguments.get? 0 = some (.expr (.arrow body))) :
    runRule env rs call
      = emitDiags name (declaredOf call.arguments) (foundOf env rs body) := by
  simp only [runRule, h1, h2, if_true, h3]

theorem collectDependencies_eq_nil (a : Arg) (h : isArrayLiteralArg a = false) :
    collectDependencies a = [] := by
  cases a with
  | spread e => rfl
  | expr e =>
    cases e with
    | arrayLit elems => simp [isArrayLiteralArg] at h
    | ident n => rfl
    | member o p => rfl
    | chain i => rfl
    | call c as => rfl
    | arrow b => rfl
    | functionExpr => rfl
    | otherExpr => rfl

theorem wf_body_of_args (args : List Arg) (body : List Stmt)
    (hwf : argsIdentsDotFree args = true)
    (h : args.get? 0 = some (.expr (.arrow body))) :
    stmtsIdentsDotFree body = true := by
  cases args with
  | nil => simp at h
  | cons a rest =>
    simp only [List.get?] at h
    injection h with h
    subst h
    simp only [argsIdentsDotFree, exprIdentsDotFree, Bool.and_eq_true] at hwf
    exact hwf.1

/-! ## Claim theorems -/

/-- C1: the collector never records a property chain whose member object is
itself a member expression, so the body `console.log(props.foo.bar)` under
declared list `[]` produces NO diagnostic — the code contradicts the claim
(and its own fail-test expectations), which require exactly one diagnostic
naming `props.foo.bar`.  With `[props.foo]` declared there is likewise no
diagnostic (vacuously, as the claim also expects). -/
theorem deep_chain_read_not_collected :
    runRule envProps 1 deepReadEmptyDepsCall = [] ∧
    runRule envProps 1 deepReadPrefixDeclCall = [] := by
  exact ⟨rfl, rfl⟩

/-- C2 counterexample: for `useEffect(() => { console.log(local); },
dependencies)` — second argument an identifier, not an array literal — the
rule still validates and emits a missing-dependency diagnostic for `local`,
contradicting the claim that no diagnostics are emitted. -/
theorem non_array_deps_still_validated_cex :
    runRule envLocal 1 nonArrayDepsCall = [{ hook := "useEffect", dep := "local" }] ∧
    runRule envLocal 1 nonArrayDepsCall ≠ [] := by
  exact ⟨rfl, by decide⟩

/-- C2 amended: when the second argument exists but is not an array-literal
expression, `collect_dependencies` yields the EMPTY declared set and the call
site is still validated: every found dependency produces a diagnostic. -/
theorem non_array_deps_empty_declared_validates (env : Env) (rs : Nat)
    (call : CallExpressionNode) (name : String) (body : List Stmt) (a : Arg)
    (h1 : funcCallWithoutReactNamespace call.callee = some name)
    (h2 : name ∈ HOOKS)
    (h3 : call.arguments.get? 0 = some (.expr (.arrow body)))
    (h4 : call.arguments.get? 1 = some a)
    (h5 : isArrayLiteralArg a = false) :
    runRule env rs call
      = (foundOf env rs body).map (fun d => { hook := name, dep := d }) := by
  rw [runRule_matched env rs call name body h1 h2 h3]
  have hdecl : declaredOf call.arguments = [] := by
    unfold declaredOf
    rw [h4]
    exact collectDependencies_eq_nil a h5
  rw [hdecl, emitDiags_nil_declared]

theorem non_array_deps_empty_declared_validates_witness :
    runRule envLocal 1 nonArrayDepsCall
      = (foundOf envLocal 1 readsLocalBody).map
          (fun d => { hook := "useEffect", dep := d }) :=
  non_array_deps_empty_declared_validates envLocal 1 nonArrayDepsCall "useEffect"
    readsLocalBody (.expr (.ident "dependencies")) rfl (by decide) rfl rfl rfl

/-- C3 counterexample: for `useEffect(() => { console.log(local); })` with no
second argument at all, the rule still flags `local` as a missing dependency,
contradicting the claim that zero diagnostics are emitted regardless of what
the body reads. -/
theorem absent_deps_arg_still_flags_cex :
    runRule envLocal 1 noDepsArgCall = [{ hook := "useEffect", dep := "local" }] ∧
    runRule envLocal 1 noDepsArgCall ≠ [] := by
  exact ⟨rfl, by decide⟩

/-- C3 amended: with no second argument the declared dependency set is indeed
empty, but the call site IS still validated against it: every found
dependency produces one diagnostic. -/
theorem absent_deps_arg_flags_all_found (env : Env) (rs : Nat)
    (call : CallExpressionNode) (name : String) (body : List Stmt)
    (h1 : funcCallWithoutReactNamespace call.callee = some name)
    (h2 : name ∈ HOOKS)
    (h3 : call.arguments.get? 0 = some (.expr (.arrow body)))
    (h4 : call.arguments.get? 1 = none) :
    runRule env rs call
      = (foundOf env rs body).map (fun d => { hook := name, dep := d }) := by
  rw [runRule_matched env rs call name body h1 h2 h3]
  have hdecl : declaredOf call.arguments = [] := by
    unfold declaredOf
    rw [h4]
  rw [hdecl, emitDiags_nil_declared]

theorem absent_deps_arg_flags_all_found_witness :
    runRule envLocal 1 noDepsArgCall
      = (foundOf envLocal 1 readsLocalBody).map
          (fun d => { hook := "useEffect", dep := d }) :=
  absent_deps_arg_flags_all_found envLocal 1 noDepsArgCall "useEffect"
    readsLocalBody rfl (by decide) rfl rfl

/-- C4: given `const [state, setState] = useState(0)`, the `setState` call is
indeed not flagged, but `is_stable_value` classifies EVERY `const` declarator
stable, so the read of `state` is also skipped: the body
`{ setState(1); console.log(state); }` with declared `[]` yields no
diagnostic at all, while the claim (and the rule's own fail tests) require a
diagnostic naming `state`. -/
theorem const_state_classified_stable_no_diag :
    isStableValue constUseStateDecl "state" = true ∧
    runRule envConstState 1 stateReadCall = [] := by
  exact ⟨rfl, rfl⟩

/-- C5 counterexample: for `let [state, setState] = React.useState(0)` the
callee chain resolves to `React.useState` — WITH the namespace — which
matches neither `useState` nor `useReducer`, so `setState` is not classified
stable and a call to it under declared `[]` IS flagged, contradicting the
claim. -/
theorem namespaced_useState_not_stable_cex :
    isStableValue reactUseStateDecl "setState" = false ∧
    runRule envReactState 1 setStateCall = [{ hook := "useEffect", dep := "setState" }] := by
  exact ⟨rfl, rfl⟩

/-- C5 amended: the second element of an array-destructuring `let` declarator
is stable when the initializer's callee is the BARE identifier `useState` or
`useReducer`; a namespace-qualified callee such as `React.useState`
canonicalizes to the chain `React.useState` and is NOT recognized, so the
binding is not stable (the callee name is not resolved ignoring the
namespace). -/
theorem stable_setter_requires_bare_callee :
    ∀ (n : String) (args : List Arg) (first : Option BindingPat),
      isStableValue (.variableDeclarator .letK (some (.call (.ident "useState") args))
        (.arrayPattern [first, some (.bindingIdent n)])) n = true ∧
      isStableValue (.variableDeclarator .letK (some (.call (.ident "useReducer") args))
        (.arrayPattern [first, some (.bindingIdent n)])) n = true ∧
      isStableValue (.variableDeclarator .letK
        (some (.call (.member (.ident "React") (some "useState")) args))
        (.arrayPattern [first, some (.bindingIdent n)])) n = false := by
  intro n args first
  refine ⟨?_, ?_, ?_⟩ <;> simp [isStableValue, analyzePropertyChain]

/-- C6 counterexample: reading `a.b` with `[a?.b]` declared DOES produce a
diagnostic for `a.b`: the optional-chaining declared entry is a
`ChainExpression`, which `analyze_property_chain` cannot analyze, so it is
dropped from the declared set — contradicting the claim that the two forms
canonicalize to the same chain with no diagnostic in either direction. -/
theorem optional_declared_plain_read_flags_cex :
    runRule envLetA 1 plainReadOptionalDeclCall = [{ hook := "useEffect", dep := "a.b" }] ∧
    runRule envLetA 1 plainReadOptionalDeclCall ≠ [] := by
  exact ⟨rfl, by decide⟩

/-- C6 amended: optional chaining is not canonicalized at all.  A
`ChainExpression` read contributes nothing to the found set and a
`ChainExpression` declared entry resolves to no chain; hence reading `a?.b`
with `[a.b]` declared yields no diagnostic (the read is skipped), while
reading `a.b` with only `[a?.b]` declared yields a diagnostic (see the
counterexample). -/
theorem optional_chaining_not_canonicalized :
    (∀ (env : Env) (rs : Nat) (inner : Expr) (deps : List String),
        checkExpression env rs (.chain inner) deps = deps) ∧
    (∀ inner : Expr, analyzePropertyChain (.chain inner) = none) ∧
    runRule envLetA 1 optionalReadPlainDeclCall = [] := by
  refine ⟨fun env rs inner deps => ?_, fun inner => ?_, ?_⟩
  · rfl
  · rfl
  · rfl

/-- C7: for every matched hook call site whose declared dependency set equals
(as a set of chains) the found dependency set, zero diagnostics are
emitted: the difference is empty, so the emission loop never runs. -/
theorem exact_match_no_diagnostics (env : Env) (rs : Nat)
    (call : CallExpressionNode) (name : String) (body : List Stmt)
    (h1 : funcCallWithoutReactNamespace call.callee = some name)
    (h2 : name ∈ HOOKS)
    (h3 : call.arguments.get? 0 = some (.expr (.arrow body)))
    (heq : ∀ d, d ∈ foundOf env rs body ↔ d ∈ declaredOf call.arguments) :
    runRule env rs call = [] := by
  rw [runRule_matched env rs call name body h1 h2 h3]
  unfold emitDiags
  have hfilter :
      (foundOf env rs body).filter (fun d => d ∉ declaredOf call.arguments) = [] := by
    rw [List.filter_eq_nil_iff]
    intro a ha
    simp [(heq a).mp ha]
  rw [hfilter]
  rfl

theorem exact_match_no_diagnostics_witness :
    runRule envLocal 1 exactMatchCall = [] :=
  exact_match_no_diagnostics envLocal 1 exactMatchCall "useEffect" readsLocalBody
    rfl (by decide) rfl (fun d => Iff.rfl)

/-- C8: every emitted diagnostic's chain is rooted at an identifier that
passed `is_identifier_a_dependency` — i.e. one that resolves to a declaration
in a scope DIFFERENT from the callback body's scope (hence, by lexical
scoping, a strict ancestor).  In particular (second conjunct) a binding
declared inside the callback body itself — e.g. a local shadowing an outer
binding — is never the root of any diagnostic, whatever the declared list
contains. -/
theorem dependency_roots_are_outer_captures (env : Env) (bodyScope : Nat)
    (call : CallExpressionNode)
    (hwf : argsIdentsDotFree call.arguments = true) :
    (∀ diag ∈ runRule env bodyScope call,
        isIdentifierADependency env bodyScope (rootOf diag.dep) = true) ∧
    (∀ name node, env.getDecl name = some (node, bodyScope) →
        ∀ diag ∈ runRule env bodyScope call, rootOf diag.dep ≠ name) := by
  have main : ∀ diag ∈ runRule env bodyScope call,
      isIdentifierADependency env bodyScope (rootOf diag.dep) = true := by
    intro diag hdiag
    unfold runRule at hdiag
    split at hdiag
    · exact absurd hdiag (List.not_mem_nil _)
    · split at hdiag
      · split at hdiag
        next body heq0 =>
          unfold emitDiags at hdiag
          rcases emitLoop_mem _ (declaredOf call.arguments) _ [] diag hdiag
            with h0 | ⟨dep, hdep, hdiageq⟩
          · exact absurd h0 (List.not_mem_nil _)
          · have hfound : dep ∈ foundOf env bodyScope body :=
              (List.mem_filter.mp hdep).1
            have hbody : stmtsIdentsDotFree body = true :=
              wf_body_of_args call.arguments body hwf heq0
            have hgood := foundOf_mem env bodyScope body dep hbody hfound
            rw [hdiageq]
            exact goodDep_root hgood
        next => exact absurd hdiag (List.not_mem_nil _)
      · exact absurd hdiag (List.not_mem_nil _)
  refine ⟨main, ?_⟩
  intro name node hdecl diag hdiag heq2
  have hmain := main diag hdiag
  rw [heq2] at hmain
  unfold isIdentifierADependency at hmain
  split at hmain
  · simp at hmain
  · simp only [hdecl] at hmain
    split at hmain
    · simp at hmain
    · simp at hmain

theorem dependency_roots_are_outer_captures_witness :
    (∀ diag ∈ runRule envShadow 1 shadowReadCall,
        isIdentifierADependency envShadow 1 (rootOf diag.dep) = true) ∧
    (∀ name node, envShadow.getDecl name = some (node, 1) →
        ∀ diag ∈ runRule envShadow 1 shadowReadCall, rootOf diag.dep ≠ name) :=
  dependency_roots_are_outer_captures envShadow 1 shadowReadCall (by decide)

/-- C9: when the first argument of the call is anything other than an
arrow-function expression — a plain `function` expression, an identifier, or
absent — `run` returns before any analysis and no diagnostics are emitted,
even when a dependency array is present. -/
theorem non_arrow_callback_no_diagnostics (env : Env) (rs : Nat)
    (call : CallExpressionNode)
    (h : ∀ body : List Stmt, call.arguments.get? 0 ≠ some (.expr (.arrow body))) :
    runRule env rs call = [] := by
  unfold runRule
  split
  · rfl
  · split
    · split
      next body heq => exact absurd heq (h body)
      next => rfl
    · rfl

theorem non_arrow_callback_no_diagnostics_witness :
    runRule envLocal 1 functionExprArgCall = [] :=
  non_arrow_callback_no_diagnostics envLocal 1 functionExprArgCall
    (fun body h => by simp [functionExprArgCall] at h)

/-- C10: only expression statements contribute to the found dependency set —
folding `check_statement` over a body gives the same set as folding it over
just the body's expression statements, because every other statement kind
falls into `check_statement`'s default branch and leaves the set unchanged,
so a read inside it can never produce a diagnostic. -/
theorem only_expression_statements_contribute (env : Env) (rs : Nat)
    (body : List Stmt) :
    foundOf env rs body = foundOf env rs (body.filter isExpressionStatement) := by
  unfold foundOf
  suffices haux : ∀ (stmts : List Stmt) (acc : List String),
      stmts.foldl (fun acc stmt => checkStatement env rs stmt acc) acc
        = (stmts.filter isExpressionStatement).foldl
            (fun acc stmt => checkStatement env rs stmt acc) acc from haux body []
  intro stmts
  induction stmts with
  | nil => intro acc; rfl
  | cons s rest ih =>
    intro acc
    cases s with
    | exprStmt e =>
      rw [show List.filter isExpressionStatement (Stmt.exprStmt e :: rest)
            = Stmt.exprStmt e :: List.filter isExpressionStatement rest from by
          simp [List.filter_cons, isExpressionStatement]]
      exact ih _
    | returnStmt arg =>
      rw [show List.filter isExpressionStatement (Stmt.returnStmt arg :: rest)
            = List.filter isExpressionStatement rest from by
          simp [List.filter_cons, isExpressionStatement]]
      exact ih _
    | ifStmt test =>
      rw [show List.filter isExpressionStatement (Stmt.ifStmt test :: rest)
            = List.filter isExpressionStatement rest from by
          simp [List.filter_cons, isExpressionStatement]]
      exact ih _
    | variableDeclStmt ini =>
      rw [show List.filter isExpressionStatement (Stmt.variableDeclStmt ini :: rest)
            = List.filter isExpressionStatement rest from by
          simp [List.filter_cons, isExpressionStatement]]
      exact ih _
    | otherStmt =>
      rw [show List.filter isExpressionStatement (Stmt.otherStmt :: rest)
            = List.filter isExpressionStatement rest from by
          simp [List.filter_cons, isExpressionStatement]]
      exact ih _

end ExhaustiveDeps
